import Mathlib

/-!
Verification of the DeepHAR-replication model code
(`src/models/deephar_replication/general_models.py` and
`src/models/deephar_replication/action_recognition.py`).

Tensors are modelled as total functions from `Fin`-indexed coordinates to
real numbers.  PyTorch layer `forward` methods become Lean functions on
these tensors; module parameter state (convolution weights, batch-norm
statistics, flags) becomes explicit structure arguments.
-/

namespace DeepHar

/-- 4-D tensor of shape B x C x H x W. -/
abbrev Tensor4 (B C H W : ℕ) : Type := Fin B → Fin C → Fin H → Fin W → ℝ

/-- 3-D tensor of shape B x C x H. -/
abbrev Tensor3 (B C H : ℕ) : Type := Fin B → Fin C → Fin H → ℝ

/-! ### Max-plus-min pooling (`MaxPlusMinPooling`, general_models.py lines 121-133)

`nn.MaxPool2d(kernel_size, stride, padding)` has implicit negative-infinity
padding, so the max over a kernel window is the max over the in-bounds part
of the window.  We model the window of output index `i` as the `Finset` of
in-bounds input indices it covers. -/

/-- Output spatial size of `nn.MaxPool2d` (ceil_mode=False):
`floor((H + 2 p - k) / s) + 1`. -/
def poolOutDim (H k s p : ℕ) : ℕ := (H + 2 * p - k) / s + 1

/-- In-bounds input indices covered by the pooling window of output index `i`:
the window spans input positions `i*s - p` to `i*s - p + k - 1`. -/
def poolWindow (H k s p : ℕ) (i : ℕ) : Finset (Fin H) :=
  Finset.univ.filter (fun h => i * s ≤ (h : ℕ) + p ∧ (h : ℕ) + p < i * s + k)

/-- 2-D pooling window: the product of the row window and the column window. -/
def poolWindow2 (H W k s p : ℕ) (i j : ℕ) : Finset (Fin H × Fin W) :=
  (poolWindow H k s p i) ×ˢ (poolWindow W k s p j)

/-- `nn.MaxPool2d(k, s, padding=p)` applied to a 4-D tensor: the max of the
in-bounds entries under each kernel window (negative-infinity padding).
`hne` states every window meets the input, which PyTorch guarantees by
requiring `p ≤ k / 2`. -/
noncomputable def maxPool2d (k s p : ℕ) {B C H W : ℕ} (x : Tensor4 B C H W)
    (hne : ∀ (i : Fin (poolOutDim H k s p)) (j : Fin (poolOutDim W k s p)),
      (poolWindow2 H W k s p i j).Nonempty) :
    Tensor4 B C (poolOutDim H k s p) (poolOutDim W k s p) :=
  fun b c i j =>
    (poolWindow2 H W k s p i j).sup' (hne i j) (fun hw => x b c hw.1 hw.2)

/-- `MaxPlusMinPooling.forward` (general_models.py lines 132-133):
`self.maxpool(x) - self.minpool(-x)`, where both `self.maxpool` and
`self.minpool` are `nn.MaxPool2d(kernel_size, stride, padding=padding)`. -/
noncomputable def MaxPlusMinPooling_forward (k s p : ℕ) {B C H W : ℕ}
    (x : Tensor4 B C H W)
    (hne : ∀ (i : Fin (poolOutDim H k s p)) (j : Fin (poolOutDim W k s p)),
      (poolWindow2 H W k s p i j).Nonempty) :
    Tensor4 B C (poolOutDim H k s p) (poolOutDim W k s p) :=
  fun b c i j =>
    maxPool2d k s p x hne b c i j
      - maxPool2d k s p (fun b c h w => -(x b c h w)) hne b c i j

/-- Min-pooling over each kernel window (the spec-side closed form that
`MaxPlusMinPooling` is claimed to realize). -/
noncomputable def minPool2d (k s p : ℕ) {B C H W : ℕ} (x : Tensor4 B C H W)
    (hne : ∀ (i : Fin (poolOutDim H k s p)) (j : Fin (poolOutDim W k s p)),
      (poolWindow2 H W k s p i j).Nonempty) :
    Tensor4 B C (poolOutDim H k s p) (poolOutDim W k s p) :=
  fun b c i j =>
    (poolWindow2 H W k s p i j).inf' (hne i j) (fun hw => x b c hw.1 hw.2)

/-! ### Global max-plus-min pooling (general_models.py lines 135-148) -/

/-- `torch.amax(x, dim=(2, 3))`: the maximum over the spatial slice of each
batch/channel pair.  Requires nonempty spatial dimensions (a zero-sized
torch tensor makes `amax` raise). -/
noncomputable def amax23 {B C H W : ℕ} (x : Tensor4 B C H W)
    (hH : 0 < H) (hW : 0 < W) : Fin B → Fin C → ℝ :=
  fun b c =>
    (Finset.univ : Finset (Fin H × Fin W)).sup'
      (by
        refine Finset.univ_nonempty_iff.mpr ?_
        exact ⟨(⟨0, hH⟩, ⟨0, hW⟩)⟩)
      (fun hw => x b c hw.1 hw.2)

/-- `GlobalMaxPlusMinPooling.forward` (general_models.py lines 145-148):
`max_pool = torch.amax(x, dim=(2, 3))`, `min_pool = torch.amax(-x, dim=(2, 3))`,
returning `max_pool - min_pool`. -/
noncomputable def GlobalMaxPlusMinPooling_forward {B C H W : ℕ}
    (x : Tensor4 B C H W) (hH : 0 < H) (hW : 0 < W) : Fin B → Fin C → ℝ :=
  fun b c =>
    amax23 x hH hW b c - amax23 (fun b c h w => -(x b c h w)) hH hW b c

/-! ### Kronecker-product feature fusion (general_models.py lines 150-162) -/

/-- `a.unsqueeze(-3)` on a 4-D tensor: inserts a size-1 axis before the
channel axis, giving shape B x C x 1 x H x W. -/
def unsqueezeM3 {B C H W : ℕ} (a : Tensor4 B C H W) :
    Fin B → Fin C → Fin 1 → Fin H → Fin W → ℝ :=
  fun n i _ h w => a n i h w

/-- `b.unsqueeze(-4)` on a 4-D tensor: inserts a size-1 axis before the
batch-adjacent axis, giving shape B x 1 x C x H x W. -/
def unsqueezeM4 {B C H W : ℕ} (b : Tensor4 B C H W) :
    Fin B → Fin 1 → Fin C → Fin H → Fin W → ℝ :=
  fun n _ j h w => b n j h w

/-- `t.tile(1, 1, r, 1, 1)` on a 5-D tensor whose third axis has size 1:
repeats that axis `r` times; index `j` reads source index `j % 1`. -/
def tileAxis3 {B C H W : ℕ} (r : ℕ) (t : Fin B → Fin C → Fin 1 → Fin H → Fin W → ℝ) :
    Fin B → Fin C → Fin r → Fin H → Fin W → ℝ :=
  fun n i j h w => t n i ⟨(j : ℕ) % 1, Nat.mod_lt _ Nat.one_pos⟩ h w

/-- `t.tile(1, r, 1, 1, 1)` on a 5-D tensor whose second axis has size 1:
repeats that axis `r` times; index `i` reads source index `i % 1`. -/
def tileAxis2 {B C H W : ℕ} (r : ℕ) (t : Fin B → Fin 1 → Fin C → Fin H → Fin W → ℝ) :
    Fin B → Fin r → Fin C → Fin H → Fin W → ℝ :=
  fun n i j h w => t n ⟨(i : ℕ) % 1, Nat.mod_lt _ Nat.one_pos⟩ j h w

/-- `kronecker_prod(a, b)` (general_models.py lines 150-162): unsqueeze `a`
at -3 and `b` at -4, tile each to shape B x C1 x C2 x H x W, and multiply
elementwise. -/
def kronecker_prod {B C1 C2 H W : ℕ} (a : Tensor4 B C1 H W) (b : Tensor4 B C2 H W) :
    Fin B → Fin C1 → Fin C2 → Fin H → Fin W → ℝ :=
  fun n i j h w =>
    tileAxis3 C2 (unsqueezeM3 a) n i j h w * tileAxis2 C1 (unsqueezeM4 b) n i j h w

/-! ### Spatial softmax and soft-argmax (general_models.py lines 77-119)

`spacial_softmax` collapses the H and W axes with `view` (an index-preserving
reshape sending `(h, w)` to `h * W + w`), applies `nn.Softmax` along the
collapsed axis, and reshapes back; the net effect on each batch/channel slice
is the softmax over its H x W entries. -/

/-- `spacial_softmax(x)` (general_models.py lines 77-86). -/
noncomputable def spacial_softmax {B C H W : ℕ} (x : Tensor4 B C H W) :
    Tensor4 B C H W :=
  fun b c h w =>
    Real.exp (x b c h w) / ∑ hw : Fin H × Fin W, Real.exp (x b c hw.1 hw.2)

/-- The weight tensor `torch.tile(height_values, (1, W)) / (H - 1)`
(general_models.py line 110): each row holds its row index over `H - 1`. -/
noncomputable def height_tensor (H W : ℕ) : Fin H → Fin W → ℝ :=
  fun h _ => ((h : ℕ) : ℝ) / ((H : ℝ) - 1)

/-- The weight tensor `torch.tile(width_values, (H, 1)) / (W - 1)`
(general_models.py line 111): each column holds its column index over `W - 1`. -/
noncomputable def width_tensor (H W : ℕ) : Fin H → Fin W → ℝ :=
  fun _ w => ((w : ℕ) : ℝ) / ((W : ℝ) - 1)

/-- `SoftArgMax.forward` on a 4-D input (general_models.py lines 94-119):
optionally apply the spatial softmax, multiply by the height and width weight
tensors, sum over H x W, and concatenate as `(x, y) = (width, height)`:
output index 0 is `width_out`, index 1 is `height_out`. -/
noncomputable def SoftArgMax_forward {B C H W : ℕ} (x : Tensor4 B C H W)
    (apply_softmax : Bool) : Fin B → Fin C → Fin 2 → ℝ :=
  fun b c d =>
    let x_prob := if apply_softmax then spacial_softmax x else x
    let height_out :=
      ∑ hw : Fin H × Fin W, x_prob b c hw.1 hw.2 * height_tensor H W hw.1 hw.2
    let width_out :=
      ∑ hw : Fin H × Fin W, x_prob b c hw.1 hw.2 * width_tensor H W hw.1 hw.2
    if (d : ℕ) = 0 then width_out else height_out

/-- `SoftArgMax.forward` on a 3-D input (general_models.py lines 97-99 and
117-118): `x.unsqueeze(-1)` makes the trailing width axis of size 1, the 4-D
path runs, and only component 1 (`height_out`) of the result is returned. -/
noncomputable def SoftArgMax_forward3 {B C H : ℕ} (x : Tensor3 B C H)
    (apply_softmax : Bool) : Fin B → Fin C → Fin 1 → ℝ :=
  fun b c _ =>
    SoftArgMax_forward (fun b c h (_ : Fin 1) => x b c h) apply_softmax b c 1

/-! ### Convolution blocks (general_models.py lines 7-75)

Convolutions are modelled in evaluation mode: `nn.BatchNorm2d` is the
per-channel affine normalization by the stored running statistics, and
`nn.ReLU` is `max 0`.  `padding='same'` with stride 1 zero-pads with
`(k-1)/2` entries before and `(k-1) - (k-1)/2` after each spatial axis
(PyTorch puts the smaller half first), which keeps the output spatial size
at the input's: `(H + padLo + padHi + 1) - k = H`. -/

/-- `nn.ReLU`. -/
def relu (v : ℝ) : ℝ := max v 0

/-- Output spatial size of a stride-1 2-D convolution with kernel `k` and
padding `pl` before / `pr` after: `H + pl + pr - k + 1`. -/
def convOutDim (H k pl pr : ℕ) : ℕ := H + pl + pr + 1 - k

/-- The padding PyTorch inserts before each axis for `padding='same'`. -/
def samePadLo (k : ℕ) : ℕ := (k - 1) / 2

/-- The padding PyTorch inserts after each axis for `padding='same'`. -/
def samePadHi (k : ℕ) : ℕ := (k - 1) - samePadLo k

/-- Output spatial size of a stride-1 convolution under `padding='same'`. -/
def convOutDimSame (H k : ℕ) : ℕ := convOutDim H k (samePadLo k) (samePadHi k)

/-- Read `x[b, c, i, j]` where `c`, `i`, `j` may land in the zero padding:
out-of-range coordinates give 0. -/
noncomputable def padGet {B C H W : ℕ} (x : Tensor4 B C H W) (b : Fin B)
    (c : ℕ) (i j : ℤ) : ℝ :=
  if hb : c < C ∧ 0 ≤ i ∧ i < (H : ℤ) ∧ 0 ≤ j ∧ j < (W : ℤ) then
    x b ⟨c, hb.1⟩ ⟨i.toNat, by omega⟩ ⟨j.toNat, by omega⟩
  else 0

/-- `nn.Conv2d(Cin, Cout, kernel_size=k, groups=g, padding='same')` in the
stride-1 case: output channel `o` convolves the `Cin / g` input channels of
its group (those starting at `(o / (Cout / g)) * (Cin / g)`) with its
`k x k` kernels; `padding='same'` keeps the spatial size (the lemma
`convOutDim` under same padding equals `H` is proved with claim C6). -/
noncomputable def conv2dSameGrouped (g k : ℕ) {B Cin Cout H W : ℕ}
    (weight : Fin Cout → Fin (Cin / g) → Fin k → Fin k → ℝ)
    (bias : Fin Cout → ℝ) (x : Tensor4 B Cin H W) : Tensor4 B Cout H W :=
  fun b o h w =>
    bias o + ∑ ci : Fin (Cin / g), ∑ i : Fin k, ∑ j : Fin k,
      weight o ci i j *
        padGet x b (((o : ℕ) / (Cout / g)) * (Cin / g) + (ci : ℕ))
          ((h : ℤ) + (i : ℤ) - (samePadLo k : ℤ))
          ((w : ℤ) + (j : ℤ) - (samePadLo k : ℤ))

/-- `nn.Conv2d(Cin, Cout, kernel_size=1)`: a 1x1 pointwise convolution,
`out[b, o, h, w] = bias[o] + sum_ci weight[o, ci] * x[b, ci, h, w]`. -/
noncomputable def pointwiseConv {B Cin Cout H W : ℕ}
    (weight : Fin Cout → Fin Cin → ℝ) (bias : Fin Cout → ℝ)
    (x : Tensor4 B Cin H W) : Tensor4 B Cout H W :=
  fun b o h w => bias o + ∑ ci : Fin Cin, weight o ci * x b ci h w

/-- `nn.BatchNorm2d` in evaluation mode: per-channel affine normalization by
the stored running mean and variance. -/
noncomputable def batchNorm2d {B C H W : ℕ} (gamma beta mean var : Fin C → ℝ)
    (eps : ℝ) (x : Tensor4 B C H W) : Tensor4 B C H W :=
  fun b c h w => (x b c h w - mean c) / Real.sqrt (var c + eps) * gamma c + beta c

/-- Parameter state of `SCBlock(n_in, n_out, s, include_batch_relu)`:
the depthwise conv `nn.Conv2d(n_in, n_in, kernel_size=s, groups=n_in,
padding='same')` (whose weight has `n_in / n_in` channels per group), the
pointwise conv `nn.Conv2d(n_in, n_out, kernel_size=1)`, and the
`nn.BatchNorm2d(n_out)` statistics. -/
structure SCBlockState (n_in n_out s : ℕ) where
  depthwise_weight : Fin n_in → Fin (n_in / n_in) → Fin s → Fin s → ℝ
  depthwise_bias : Fin n_in → ℝ
  pointwise_weight : Fin n_out → Fin n_in → ℝ
  pointwise_bias : Fin n_out → ℝ
  bn_gamma : Fin n_out → ℝ
  bn_beta : Fin n_out → ℝ
  bn_mean : Fin n_out → ℝ
  bn_var : Fin n_out → ℝ
  bn_eps : ℝ
  include_batch_relu : Bool

/-- `SCBlock.forward` (general_models.py lines 37-42): depthwise conv, then
pointwise conv, then `relu(batch_norm(out))` if `include_batch_relu`. -/
noncomputable def SCBlock_forward {n_in n_out s : ℕ} (st : SCBlockState n_in n_out s)
    {B H W : ℕ} (x : Tensor4 B n_in H W) : Tensor4 B n_out H W :=
  let out := conv2dSameGrouped n_in s st.depthwise_weight st.depthwise_bias x
  let out := pointwiseConv st.pointwise_weight st.pointwise_bias out
  if st.include_batch_relu then
    fun b c h w =>
      relu (batchNorm2d st.bn_gamma st.bn_beta st.bn_mean st.bn_var st.bn_eps out b c h w)
  else out

/-- Parameter state of `SRBlock(n_in, n_out, s, include_batch_relu)`:
the 1x1 conv `nn.Conv2d(n_in, n_out, kernel_size=1)`, the inner
`SCBlock(n_in, n_out, s, include_batch_relu=True)`, and the
`nn.BatchNorm2d(n_out)` statistics. -/
structure SRBlockState (n_in n_out s : ℕ) where
  conv_weight : Fin n_out → Fin n_in → ℝ
  conv_bias : Fin n_out → ℝ
  sc : SCBlockState n_in n_out s
  bn_gamma : Fin n_out → ℝ
  bn_beta : Fin n_out → ℝ
  bn_mean : Fin n_out → ℝ
  bn_var : Fin n_out → ℝ
  bn_eps : ℝ
  include_batch_relu : Bool

/-- `SRBlock.forward` (general_models.py lines 62-75).  In the
`n_in == n_out` branch the source computes `out = x + out1`, overwrites it
with `out = self.batch_norm(out)` and then with `out = self.relu(out1)`
when `include_batch_relu`, so the batch-normalized residual sum is dead. -/
noncomputable def SRBlock_forward {n_in n_out s : ℕ} (st : SRBlockState n_in n_out s)
    {B H W : ℕ} (x : Tensor4 B n_in H W) : Tensor4 B n_out H W :=
  let out1 := pointwiseConv st.conv_weight st.conv_bias x
  if heq : n_in = n_out then
    let out : Tensor4 B n_out H W :=
      fun b c h w => x b (Fin.cast heq.symm c) h w + out1 b c h w
    if st.include_batch_relu then
      let _ := batchNorm2d st.bn_gamma st.bn_beta st.bn_mean st.bn_var st.bn_eps out
      fun b c h w => relu (out1 b c h w)
    else out
  else
    let out2 := SCBlock_forward st.sc x
    let out : Tensor4 B n_out H W := fun b c h w => out1 b c h w + out2 b c h w
    if st.include_batch_relu then
      fun b c h w =>
        relu (batchNorm2d st.bn_gamma st.bn_beta st.bn_mean st.bn_var st.bn_eps out b c h w)
    else out

/-! ### Action recognition (action_recognition.py)

`ActionCombined` stacks `ActionStart` and `K` `ActionBlock`s.  The claims
about it concern the dataflow of `ActionCombined.forward`, not the weights
inside the stages, so a stage is modelled as the function its parameters
induce: `action_start` maps the input to a feature tensor and each
`action_blocks k` maps a feature tensor to an action-prediction row (the
softmaxed global pooling of its heat maps) and a new feature tensor. -/

/-- Parameter state of `ActionCombined(pose_rec, N_a, K)`
(action_recognition.py lines 100-105): the `ActionStart` module and the
list of `K` `ActionBlock`s. -/
structure ActionCombinedState (X F : Type) (N_a K : ℕ) where
  action_start : X → F
  action_blocks : Fin K → F → (Fin N_a → ℝ) × F

/-- The `for` loop of `ActionCombined.forward` (action_recognition.py lines
112-116), rendered as structural recursion on the running block index `k`:
`actions, new_out = block(out + prev_out)`, then `prev_out = out`,
`out = new_out`, `all_actions[k] = actions`. -/
def ActionCombined_loop {X F : Type} [Add F] {N_a K : ℕ}
    (st : ActionCombinedState X F N_a K) (k : ℕ) (out prev_out : F)
    (all_actions : Fin K → Fin N_a → ℝ) : (Fin K → Fin N_a → ℝ) × F :=
  if h : k < K then
    ActionCombined_loop st (k + 1) (st.action_blocks ⟨k, h⟩ (out + prev_out)).2 out
      (Function.update all_actions ⟨k, h⟩ (st.action_blocks ⟨k, h⟩ (out + prev_out)).1)
  else (all_actions, out)
termination_by K - k
decreasing_by omega

/-- `ActionCombined.forward` (action_recognition.py lines 107-117):
`all_actions = torch.zeros((K, N_a))`, `out = self.action_start(x)`,
`prev_out = 0`, the block loop, returning `(all_actions, out)`. -/
def ActionCombined_forward {X F : Type} [Zero F] [Add F] {N_a K : ℕ}
    (st : ActionCombinedState X F N_a K) (x : X) : (Fin K → Fin N_a → ℝ) × F :=
  ActionCombined_loop st 0 (st.action_start x) 0 (fun _ _ => 0)

/-- The stage-feature recurrence the claim describes: stage 0 is the zero
feature (the initial `prev_out`), stage 1 is the `ActionStart` output, and
stage `n + 2` is the feature output of block `n` applied to the sum of the
two preceding stage features. -/
def stageFeat {X F : Type} [Zero F] [Add F] {N_a K : ℕ}
    (st : ActionCombinedState X F N_a K) (x : X) : ℕ → F
  | 0 => 0
  | 1 => st.action_start x
  | (n + 2) =>
    if h : n < K then
      (st.action_blocks ⟨n, h⟩ (stageFeat st x (n + 1) + stageFeat st x n)).2
    else 0

/-- `appearance_extract(entry_input, prob_maps)` (action_recognition.py
lines 119-129): Kronecker-product feature fusion followed by a sum over the
two trailing spatial axes. -/
def appearance_extract {B C1 C2 H W : ℕ} (entry_input : Tensor4 B C1 H W)
    (prob_maps : Tensor4 B C2 H W) : Fin B → Fin C1 → Fin C2 → ℝ :=
  fun n i j =>
    ∑ hw : Fin H × Fin W, kronecker_prod entry_input prob_maps n i j hw.1 hw.2

/-- `nn.Softmax` applied to a vector (the final activation of
`ActionRecognition.forward`). -/
noncomputable def softmax1d {n : ℕ} (v : Fin n → ℝ) : Fin n → ℝ :=
  fun a => Real.exp (v a) / ∑ a', Real.exp (v a')

/-- `torch.cat((u, v), dim=0)` on two vectors of equal length `n`. -/
def catPair {n : ℕ} (u v : Fin n → ℝ) : Fin (2 * n) → ℝ :=
  fun i => if h : (i : ℕ) < n then u ⟨i, h⟩ else v ⟨(i : ℕ) - n, by omega⟩

/-- Parameter state of `ActionRecognition(N_a, K)` (action_recognition.py
lines 136-143): the pose-based and appearance-based `ActionCombined` stacks
and the fully connected layer `nn.Linear(2 * N_a, N_a)`. -/
structure ActionRecognitionState (Xp F1 F2 : Type) (B C1 C2 H W N_a K : ℕ) where
  pose_rec : ActionCombinedState Xp F1 N_a K
  action_rec : ActionCombinedState (Fin B → Fin C1 → Fin C2 → ℝ) F2 N_a K
  fc_weight : Fin N_a → Fin (2 * N_a) → ℝ
  fc_bias : Fin N_a → ℝ

/-- `ActionRecognition.forward` (action_recognition.py lines 145-151):
extract the appearance features, run both `ActionCombined` stacks, isolate
the action row of the last block of each (`[-1]`, hence `0 < K`),
concatenate, and apply the fully connected layer with softmax. -/
noncomputable def ActionRecognition_forward {Xp F1 F2 : Type}
    [Zero F1] [Add F1] [Zero F2] [Add F2] {B C1 C2 H W N_a K : ℕ} (hK : 0 < K)
    (st : ActionRecognitionState Xp F1 F2 B C1 C2 H W N_a K) (pose_input : Xp)
    (entry_input : Tensor4 B C1 H W) (prob_maps : Tensor4 B C2 H W) :
    Fin N_a → ℝ :=
  let appearance_input := appearance_extract entry_input prob_maps
  let pose_actions := (ActionCombined_forward st.pose_rec pose_input).1
  let appearance_actions := (ActionCombined_forward st.action_rec appearance_input).1
  let fc_input := catPair (pose_actions ⟨K - 1, by omega⟩)
    (appearance_actions ⟨K - 1, by omega⟩)
  softmax1d (fun a => st.fc_bias a + ∑ i, st.fc_weight a i * fc_input i)

/-! ### Concrete parameter states and inputs used by witnesses -/

/-- A concrete 1x1x2x2 input used by witnesses. -/
def sampleT4 : Tensor4 1 1 2 2 := fun _ _ h w => ((h : ℕ) : ℝ) + ((w : ℕ) : ℝ)

/-- A concrete 1x1x1x2 input used by the C5 witness. -/
def sampleT4b : Tensor4 1 1 1 2 := fun _ _ _ w => ((w : ℕ) : ℝ)

/-- A concrete 1x1x1x1 input used by witnesses. -/
def sampleT4c : Tensor4 1 1 1 1 := fun _ _ _ _ => 2

/-- A concrete `SCBlockState 1 1 1` used by witnesses. -/
noncomputable def sampleSC : SCBlockState 1 1 1 where
  depthwise_weight := fun _ _ _ _ => 1
  depthwise_bias := fun _ => 0
  pointwise_weight := fun _ _ => 1
  pointwise_bias := fun _ => 0
  bn_gamma := fun _ => 1
  bn_beta := fun _ => 0
  bn_mean := fun _ => 0
  bn_var := fun _ => 1
  bn_eps := 0
  include_batch_relu := true

/-- A concrete `SRBlockState 1 1 1` with `include_batch_relu = true` used by
the C9 witness. -/
noncomputable def sampleSR : SRBlockState 1 1 1 where
  conv_weight := fun _ _ => 1
  conv_bias := fun _ => 0
  sc := sampleSC
  bn_gamma := fun _ => 1
  bn_beta := fun _ => 0
  bn_mean := fun _ => 0
  bn_var := fun _ => 1
  bn_eps := 0
  include_batch_relu := true

/-- A concrete `ActionCombinedState` over scalar features used by the C1
witness. -/
def sampleAC : ActionCombinedState ℝ ℝ 1 1 where
  action_start := fun x => x
  action_blocks := fun _ f => (fun _ => f, f)

/-- A concrete `ActionRecognitionState` used by the C8 witness. -/
def sampleAR : ActionRecognitionState ℝ ℝ ℝ 1 1 1 1 1 1 1 where
  pose_rec := sampleAC
  action_rec :=
    { action_start := fun _ => 0
      action_blocks := fun _ f => (fun _ => f, f) }
  fc_weight := fun _ _ => 1
  fc_bias := fun _ => 0

end DeepHar

namespace DeepHar

/-! ### Helper lemmas -/

/-- Every pooling window of a 2x2 input under kernel 2, stride 2, padding 0
is nonempty (used by the C2 witness). -/
lemma poolWindow2_nonempty_2x2 :
    ∀ (i : Fin (poolOutDim 2 2 2 0)) (j : Fin (poolOutDim 2 2 2 0)),
      (poolWindow2 2 2 2 2 0 i j).Nonempty := by decide

/-- The sup of the negation is the negation of the inf. -/
lemma sup'_neg_eq_neg_inf' {ι : Type _} (s : Finset ι) (hs : s.Nonempty)
    (f : ι → ℝ) : s.sup' hs (fun i => -(f i)) = -(s.inf' hs f) := by
  apply le_antisymm
  · apply Finset.sup'_le
    intro i hi
    exact neg_le_neg (Finset.inf'_le _ hi)
  · obtain ⟨i₀, hi₀, hmin⟩ := Finset.exists_mem_eq_inf' hs f
    rw [hmin]
    exact Finset.le_sup' (fun i => -(f i)) hi₀

/-- Invariant of the `ActionCombined.forward` loop: entering iteration `k`
with `out` and `prev_out` holding stage features `k + 1` and `k`, the loop
fills every remaining row `j ≥ k` with the action output of block `j` on the
sum of the two preceding stage features, and finishes with the feature of
stage `K + 1`. -/
lemma ActionCombined_loop_spec {X F : Type} [Zero F] [Add F] {N_a K : ℕ}
    (st : ActionCombinedState X F N_a K) (x : X) :
    ∀ (n k : ℕ), k ≤ K → K - k = n → ∀ (acc : Fin K → Fin N_a → ℝ),
      ActionCombined_loop st k (stageFeat st x (k + 1)) (stageFeat st x k) acc =
        (fun j : Fin K =>
          if k ≤ (j : ℕ) then
            (st.action_blocks j
              (stageFeat st x ((j : ℕ) + 1) + stageFeat st x (j : ℕ))).1
          else acc j,
        stageFeat st x (K + 1)) := by
  intro n
  induction n with
  | zero =>
    intro k hk hkn acc
    have hkK : k = K := by omega
    subst hkK
    rw [ActionCombined_loop, dif_neg (by omega)]
    simp only [Prod.mk.injEq]
    refine ⟨funext fun j => ?_, trivial⟩
    have hj : ¬ (k ≤ (j : ℕ)) := by
      have := j.isLt
      omega
    rw [if_neg hj]
  | succ n ih =>
    intro k hk hkn acc
    have hklt : k < K := by omega
    rw [ActionCombined_loop, dif_pos hklt]
    have hsnd :
        (st.action_blocks ⟨k, hklt⟩ (stageFeat st x (k + 1) + stageFeat st x k)).2
          = stageFeat st x (k + 1 + 1) := by
      have heqn : stageFeat st x (k + 2) =
          if h : k < K then
            (st.action_blocks ⟨k, h⟩
              (stageFeat st x (k + 1) + stageFeat st x k)).2
          else 0 := rfl
      rw [show k + 1 + 1 = k + 2 from rfl, heqn, dif_pos hklt]
    rw [hsnd, ih (k + 1) (by omega) (by omega)]
    simp only [Prod.mk.injEq]
    refine ⟨funext fun j => ?_, trivial⟩
    by_cases hj : k + 1 ≤ (j : ℕ)
    · rw [if_pos hj, if_pos (by omega)]
    · rw [if_neg hj]
      by_cases hjk : k ≤ (j : ℕ)
      · have hjval : (j : ℕ) = k := by omega
        have hjeq : j = ⟨k, hklt⟩ := Fin.ext hjval
        subst hjeq
        rw [Function.update_same,
          if_pos (show k ≤ ((⟨k, hklt⟩ : Fin K) : ℕ) from le_refl k)]
      · rw [if_neg hjk, Function.update_noteq (by
          intro hc
          rw [hc] at hjk
          exact hjk (le_refl k))]

end DeepHar

namespace DeepHar

/-! ### Claim theorems -/

/-- C2: `MaxPlusMinPooling.forward(x)` equals, at every output position, the
max over the in-bounds part of the kernel window plus the min over the same
window: it computes `maxpool(x) - maxpool(-x)` with the given kernel size,
stride and padding, and `-maxpool(-x) = minpool(x)`. -/
theorem maxPlusMinPooling_eq_max_add_min (k s p B C H W : ℕ)
    (x : Tensor4 B C H W)
    (hne : ∀ (i : Fin (poolOutDim H k s p)) (j : Fin (poolOutDim W k s p)),
      (poolWindow2 H W k s p i j).Nonempty)
    (b : Fin B) (c : Fin C)
    (i : Fin (poolOutDim H k s p)) (j : Fin (poolOutDim W k s p)) :
    MaxPlusMinPooling_forward k s p x hne b c i j =
      maxPool2d k s p x hne b c i j + minPool2d k s p x hne b c i j := by
  unfold MaxPlusMinPooling_forward maxPool2d minPool2d
  rw [sup'_neg_eq_neg_inf']
  ring

/-- Witness for C2: a concrete 1x1x2x2 input with kernel 2, stride 2,
padding 0; every window is nonempty and the theorem applies. -/
theorem maxPlusMinPooling_eq_max_add_min_witness :
    @MaxPlusMinPooling_forward 2 2 0 1 1 2 2 sampleT4 poolWindow2_nonempty_2x2
        ⟨0, Nat.one_pos⟩ ⟨0, Nat.one_pos⟩ ⟨0, by decide⟩ ⟨0, by decide⟩ =
      @maxPool2d 2 2 0 1 1 2 2 sampleT4 poolWindow2_nonempty_2x2
          ⟨0, Nat.one_pos⟩ ⟨0, Nat.one_pos⟩ ⟨0, by decide⟩ ⟨0, by decide⟩ +
        @minPool2d 2 2 0 1 1 2 2 sampleT4 poolWindow2_nonempty_2x2
          ⟨0, Nat.one_pos⟩ ⟨0, Nat.one_pos⟩ ⟨0, by decide⟩ ⟨0, by decide⟩ :=
  maxPlusMinPooling_eq_max_add_min 2 2 0 1 1 2 2 sampleT4 poolWindow2_nonempty_2x2
    ⟨0, Nat.one_pos⟩ ⟨0, Nat.one_pos⟩ ⟨0, by decide⟩ ⟨0, by decide⟩

/-- C5: `GlobalMaxPlusMinPooling.forward(x)` at each batch/channel pair equals
the maximum of the spatial slice plus its minimum, since
`amax(x) - amax(-x) = max + min` per channel. -/
theorem globalMaxPlusMinPooling_eq_max_add_min (B C H W : ℕ)
    (x : Tensor4 B C H W) (hH : 0 < H) (hW : 0 < W) (b : Fin B) (c : Fin C) :
    GlobalMaxPlusMinPooling_forward x hH hW b c =
      (Finset.univ : Finset (Fin H × Fin W)).sup'
          (Finset.univ_nonempty_iff.mpr ⟨(⟨0, hH⟩, ⟨0, hW⟩)⟩)
          (fun hw => x b c hw.1 hw.2) +
        (Finset.univ : Finset (Fin H × Fin W)).inf'
          (Finset.univ_nonempty_iff.mpr ⟨(⟨0, hH⟩, ⟨0, hW⟩)⟩)
          (fun hw => x b c hw.1 hw.2) := by
  unfold GlobalMaxPlusMinPooling_forward amax23
  rw [sup'_neg_eq_neg_inf']
  ring

/-- Witness for C5: the theorem applied to a concrete 1x1x1x2 input. -/
theorem globalMaxPlusMinPooling_eq_max_add_min_witness :
    @GlobalMaxPlusMinPooling_forward 1 1 1 2 sampleT4b Nat.one_pos Nat.zero_lt_two
        ⟨0, Nat.one_pos⟩ ⟨0, Nat.one_pos⟩ =
      (Finset.univ : Finset (Fin 1 × Fin 2)).sup'
          (Finset.univ_nonempty_iff.mpr ⟨(⟨0, Nat.one_pos⟩, ⟨0, Nat.zero_lt_two⟩)⟩)
          (fun hw => sampleT4b ⟨0, Nat.one_pos⟩ ⟨0, Nat.one_pos⟩ hw.1 hw.2) +
        (Finset.univ : Finset (Fin 1 × Fin 2)).inf'
          (Finset.univ_nonempty_iff.mpr ⟨(⟨0, Nat.one_pos⟩, ⟨0, Nat.zero_lt_two⟩)⟩)
          (fun hw => sampleT4b ⟨0, Nat.one_pos⟩ ⟨0, Nat.one_pos⟩ hw.1 hw.2) :=
  globalMaxPlusMinPooling_eq_max_add_min 1 1 1 2 sampleT4b Nat.one_pos Nat.zero_lt_two
    ⟨0, Nat.one_pos⟩ ⟨0, Nat.one_pos⟩

/-- C4: `kronecker_prod(a, b)` has entry `[n, i, j, h, w]` equal to
`a[n, i, h, w] * b[n, j, h, w]` (channel-wise Kronecker product fusion). -/
theorem kronecker_prod_entry (B C1 C2 H W : ℕ)
    (a : Tensor4 B C1 H W) (b : Tensor4 B C2 H W)
    (n : Fin B) (i : Fin C1) (j : Fin C2) (h : Fin H) (w : Fin W) :
    kronecker_prod a b n i j h w = a n i h w * b n j h w := rfl

/-- C7: every entry of `spacial_softmax(x)` is strictly positive and, for
every batch index and channel, the H x W entries of that slice sum to 1. -/
theorem spacial_softmax_prob_map (B C H W : ℕ) (hH : 0 < H) (hW : 0 < W)
    (x : Tensor4 B C H W) :
    (∀ (b : Fin B) (c : Fin C) (h : Fin H) (w : Fin W),
        0 < spacial_softmax x b c h w) ∧
    (∀ (b : Fin B) (c : Fin C),
        ∑ hw : Fin H × Fin W, spacial_softmax x b c hw.1 hw.2 = 1) := by
  have hS : ∀ (b : Fin B) (c : Fin C),
      0 < ∑ hw : Fin H × Fin W, Real.exp (x b c hw.1 hw.2) := by
    intro b c
    exact Finset.sum_pos (fun i _ => Real.exp_pos _)
      (Finset.univ_nonempty_iff.mpr ⟨(⟨0, hH⟩, ⟨0, hW⟩)⟩)
  constructor
  · intro b c h w
    exact div_pos (Real.exp_pos _) (hS b c)
  · intro b c
    unfold spacial_softmax
    rw [← Finset.sum_div]
    exact div_self (hS b c).ne'

/-- Witness for C7: the theorem applied to a concrete 1x1x2x2 input. -/
theorem spacial_softmax_prob_map_witness :
    (∀ (b : Fin 1) (c : Fin 1) (h : Fin 2) (w : Fin 2),
        0 < spacial_softmax sampleT4 b c h w) ∧
    (∀ (b : Fin 1) (c : Fin 1),
        ∑ hw : Fin 2 × Fin 2, spacial_softmax sampleT4 b c hw.1 hw.2 = 1) :=
  spacial_softmax_prob_map 1 1 2 2 Nat.zero_lt_two Nat.zero_lt_two sampleT4

/-- C3: on a 4-D input with the softmax applied, `SoftArgMax.forward` returns
at index 0 the sum of `p[b,c,h,w] * w / (W - 1)` and at index 1 the sum of
`p[b,c,h,w] * h / (H - 1)`, where `p` is the spatial softmax of `x`:
the closed-form soft-argmax in (x, y) = (width, height) order. -/
theorem softArgMax_closed_form (B C H W : ℕ) (hH : 2 ≤ H) (hW : 2 ≤ W)
    (x : Tensor4 B C H W) (b : Fin B) (c : Fin C) :
    SoftArgMax_forward x true b c 0 =
      ∑ hw : Fin H × Fin W,
        spacial_softmax x b c hw.1 hw.2 * (((hw.2 : ℕ) : ℝ) / ((W : ℝ) - 1)) ∧
    SoftArgMax_forward x true b c 1 =
      ∑ hw : Fin H × Fin W,
        spacial_softmax x b c hw.1 hw.2 * (((hw.1 : ℕ) : ℝ) / ((H : ℝ) - 1)) := by
  constructor
  · simp [SoftArgMax_forward, width_tensor]
  · simp [SoftArgMax_forward, height_tensor]

/-- Witness for C3: the theorem applied to a concrete 1x1x2x2 input. -/
theorem softArgMax_closed_form_witness :
    SoftArgMax_forward sampleT4 true ⟨0, Nat.one_pos⟩ ⟨0, Nat.one_pos⟩ 0 =
      ∑ hw : Fin 2 × Fin 2,
        spacial_softmax sampleT4 ⟨0, Nat.one_pos⟩ ⟨0, Nat.one_pos⟩ hw.1 hw.2 *
          (((hw.2 : ℕ) : ℝ) / ((2 : ℝ) - 1)) ∧
    SoftArgMax_forward sampleT4 true ⟨0, Nat.one_pos⟩ ⟨0, Nat.one_pos⟩ 1 =
      ∑ hw : Fin 2 × Fin 2,
        spacial_softmax sampleT4 ⟨0, Nat.one_pos⟩ ⟨0, Nat.one_pos⟩ hw.1 hw.2 *
          (((hw.1 : ℕ) : ℝ) / ((2 : ℝ) - 1)) :=
  softArgMax_closed_form 1 1 2 2 (le_refl 2) (le_refl 2) sampleT4
    ⟨0, Nat.one_pos⟩ ⟨0, Nat.one_pos⟩

/-- C10: `SoftArgMax.forward` divides by zero without any guard on degenerate
shapes: on every 3-D input the trailing axis is unsqueezed to size `W = 1`
and the computation routes unconditionally through the 4-D path, where the
width weight tensor divides by `W - 1 = 0`; likewise every 4-D input with
`H = 1` makes the height weight tensor divide by `H - 1 = 0`. -/
theorem softArgMax_unguarded_div_by_zero :
    (∀ (H : ℕ) (h : Fin H) (w : Fin 1), width_tensor H 1 h w = ((w : ℕ) : ℝ) / 0) ∧
    (∀ (W : ℕ) (h : Fin 1) (w : Fin W), height_tensor 1 W h w = ((h : ℕ) : ℝ) / 0) ∧
    (∀ (B C H : ℕ) (x : Tensor3 B C H) (b : Fin B) (c : Fin C) (d : Fin 1),
        SoftArgMax_forward3 x true b c d =
          SoftArgMax_forward (fun b c h (_ : Fin 1) => x b c h) true b c 1) := by
  refine ⟨?_, ?_, ?_⟩
  · intro H h w
    unfold width_tensor
    norm_num
  · intro W h w
    unfold height_tensor
    norm_num
  · intro B C H x b c d
    rfl

/-- C6: `SCBlock.forward` is a depthwise-separable convolution: its value is
the grouped depthwise convolution followed by the 1x1 pointwise convolution
(`n_in` to `n_out` channels), with batch normalization and ReLU afterwards
iff `include_batch_relu`; the depthwise convolution is per-channel (output
channel `c` depends only on input channel `c`), and same padding with
stride 1 keeps the output spatial size equal to the input's. -/
theorem scBlock_separable_conv (n_in n_out s B H W : ℕ)
    (hn : 0 < n_in) (hs : 0 < s)
    (st : SCBlockState n_in n_out s) (x : Tensor4 B n_in H W) :
    (convOutDimSame H s = H ∧ convOutDimSame W s = W) ∧
    (SCBlock_forward st x =
      if st.include_batch_relu then
        fun b c h w =>
          relu (batchNorm2d st.bn_gamma st.bn_beta st.bn_mean st.bn_var st.bn_eps
            (pointwiseConv st.pointwise_weight st.pointwise_bias
              (conv2dSameGrouped n_in s st.depthwise_weight st.depthwise_bias x)) b c h w)
      else
        pointwiseConv st.pointwise_weight st.pointwise_bias
          (conv2dSameGrouped n_in s st.depthwise_weight st.depthwise_bias x)) ∧
    (∀ (y : Tensor4 B n_in H W) (c : Fin n_in),
      (∀ (b : Fin B) (i : Fin H) (j : Fin W), x b c i j = y b c i j) →
      ∀ (b : Fin B) (i : Fin H) (j : Fin W),
        conv2dSameGrouped n_in s st.depthwise_weight st.depthwise_bias x b c i j =
          conv2dSameGrouped n_in s st.depthwise_weight st.depthwise_bias y b c i j) := by
  refine ⟨⟨?_, ?_⟩, rfl, ?_⟩
  · simp only [convOutDimSame, convOutDim, samePadHi, samePadLo]
    omega
  · simp only [convOutDimSame, convOutDim, samePadHi, samePadLo]
    omega
  · intro y c hxy b i j
    unfold conv2dSameGrouped
    congr 1
    apply Finset.sum_congr rfl
    intro ci _
    apply Finset.sum_congr rfl
    intro ki _
    apply Finset.sum_congr rfl
    intro kj _
    have hdiv : n_in / n_in = 1 := Nat.div_self hn
    have hci : (ci : ℕ) = 0 := by
      have h2 := ci.isLt
      omega
    have hmul : ((c : ℕ) / (n_in / n_in)) * (n_in / n_in) = (c : ℕ) := by
      rw [hdiv, Nat.div_one, Nat.mul_one]
    have hch : ((c : ℕ) / (n_in / n_in)) * (n_in / n_in) + (ci : ℕ) = (c : ℕ) := by
      omega
    have key : ∀ cc : ℕ, cc = (c : ℕ) →
        padGet x b cc ((i : ℤ) + (ki : ℤ) - (samePadLo s : ℤ))
            ((j : ℤ) + (kj : ℤ) - (samePadLo s : ℤ)) =
          padGet y b cc ((i : ℤ) + (ki : ℤ) - (samePadLo s : ℤ))
            ((j : ℤ) + (kj : ℤ) - (samePadLo s : ℤ)) := by
      intro cc hcc
      subst hcc
      unfold padGet
      by_cases hcond : (c : ℕ) < n_in ∧ 0 ≤ (i : ℤ) + (ki : ℤ) - (samePadLo s : ℤ) ∧
          (i : ℤ) + (ki : ℤ) - (samePadLo s : ℤ) < (H : ℤ) ∧
          0 ≤ (j : ℤ) + (kj : ℤ) - (samePadLo s : ℤ) ∧
          (j : ℤ) + (kj : ℤ) - (samePadLo s : ℤ) < (W : ℤ)
      · rw [dif_pos hcond, dif_pos hcond]
        have hc : (⟨(c : ℕ), hcond.1⟩ : Fin n_in) = c := Fin.eta c hcond.1
        rw [hc]
        exact hxy b _ _
      · rw [dif_neg hcond, dif_neg hcond]
    exact congrArg _ (key _ hch)

/-- Witness for C6: the theorem applied to a concrete `SCBlock(1, 1, 1)` and
a 1x1x1x1 input. -/
theorem scBlock_separable_conv_witness :
    (convOutDimSame 1 1 = 1 ∧ convOutDimSame 1 1 = 1) ∧
    (SCBlock_forward sampleSC sampleT4c =
      if sampleSC.include_batch_relu then
        fun b c h w =>
          relu (batchNorm2d sampleSC.bn_gamma sampleSC.bn_beta sampleSC.bn_mean
            sampleSC.bn_var sampleSC.bn_eps
            (pointwiseConv sampleSC.pointwise_weight sampleSC.pointwise_bias
              (conv2dSameGrouped 1 1 sampleSC.depthwise_weight sampleSC.depthwise_bias
                sampleT4c)) b c h w)
      else
        pointwiseConv sampleSC.pointwise_weight sampleSC.pointwise_bias
          (conv2dSameGrouped 1 1 sampleSC.depthwise_weight sampleSC.depthwise_bias
            sampleT4c)) ∧
    (∀ (y : Tensor4 1 1 1 1) (c : Fin 1),
      (∀ (b : Fin 1) (i : Fin 1) (j : Fin 1), sampleT4c b c i j = y b c i j) →
      ∀ (b : Fin 1) (i : Fin 1) (j : Fin 1),
        conv2dSameGrouped 1 1 sampleSC.depthwise_weight sampleSC.depthwise_bias
            sampleT4c b c i j =
          conv2dSameGrouped 1 1 sampleSC.depthwise_weight sampleSC.depthwise_bias
            y b c i j) :=
  scBlock_separable_conv 1 1 1 1 1 1 Nat.one_pos Nat.one_pos sampleSC sampleT4c

/-- C9: with `n_in = n_out` and `include_batch_relu` true, `SRBlock.forward`
returns `relu(conv(x))` from the 1x1 convolution branch alone; the residual
sum `x + conv(x)` and its batch normalization do not reach the returned
value. -/
theorem srBlock_relu_conv_only (n s B H W : ℕ) (st : SRBlockState n n s)
    (hflag : st.include_batch_relu = true) (x : Tensor4 B n H W) :
    SRBlock_forward st x =
      fun b c h w => relu (pointwiseConv st.conv_weight st.conv_bias x b c h w) := by
  unfold SRBlock_forward
  rw [dif_pos rfl, if_pos (by rw [hflag])]

/-- Witness for C9: the theorem applied to a concrete `SRBlock(1, 1, 1)`
and a 1x1x1x1 input. -/
theorem srBlock_relu_conv_only_witness :
    SRBlock_forward sampleSR sampleT4c =
      fun b c h w =>
        relu (pointwiseConv sampleSR.conv_weight sampleSR.conv_bias sampleT4c b c h w) :=
  srBlock_relu_conv_only 1 1 1 1 1 sampleSR rfl sampleT4c

/-- C1: for `K ≥ 1`, `ActionCombined.forward` applies `ActionStart` once and
then the `K` blocks in index order; the input to block `k` is the sum of the
feature outputs of the two preceding stages (the `ActionStart` output and the
zero feature for the first block), row `k` of the returned K x N_a tensor is
the action prediction of block `k`, and the second return value is the
feature output of the last block. -/
theorem actionCombined_stacked_supervision (X F : Type) [Zero F] [Add F]
    (N_a K : ℕ) (hK : 1 ≤ K) (st : ActionCombinedState X F N_a K) (x : X) :
    (∀ k : Fin K,
      (ActionCombined_forward st x).1 k =
        (st.action_blocks k
          (stageFeat st x ((k : ℕ) + 1) + stageFeat st x (k : ℕ))).1) ∧
    (ActionCombined_forward st x).2 = stageFeat st x (K + 1) := by
  have h := ActionCombined_loop_spec st x K 0 (Nat.zero_le K) (by omega)
    (fun _ _ => 0)
  have h2 : ActionCombined_forward st x =
      (fun j : Fin K =>
        if 0 ≤ (j : ℕ) then
          (st.action_blocks j
            (stageFeat st x ((j : ℕ) + 1) + stageFeat st x (j : ℕ))).1
        else 0,
      stageFeat st x (K + 1)) := h
  refine ⟨fun k => ?_, ?_⟩
  · rw [h2]
    exact if_pos (Nat.zero_le _)
  · rw [h2]

/-- Witness for C1: the theorem applied to `K = 1` concrete stages. -/
theorem actionCombined_stacked_supervision_witness :
    (∀ k : Fin 1,
      (ActionCombined_forward sampleAC 2).1 k =
        (sampleAC.action_blocks k
          (stageFeat sampleAC 2 ((k : ℕ) + 1) + stageFeat sampleAC 2 (k : ℕ))).1) ∧
    (ActionCombined_forward sampleAC 2).2 = stageFeat sampleAC 2 (1 + 1) :=
  actionCombined_stacked_supervision ℝ ℝ 1 1 (le_refl 1) sampleAC 2

/-- C8: `ActionRecognition.forward` is a deterministic function of the
parameter state and the three inputs: two runs on equal states and equal
inputs give equal outputs (the embedding exhibits the forward pass as a pure
function, with no control logic, scheduling or concurrency dependence). -/
theorem actionRecognition_deterministic (Xp F1 F2 : Type)
    [Zero F1] [Add F1] [Zero F2] [Add F2] (B C1 C2 H W N_a K : ℕ) (hK : 0 < K)
    (st st' : ActionRecognitionState Xp F1 F2 B C1 C2 H W N_a K)
    (pose_input pose_input' : Xp) (entry_input entry_input' : Tensor4 B C1 H W)
    (prob_maps prob_maps' : Tensor4 B C2 H W)
    (hst : st = st') (hpose : pose_input = pose_input')
    (hentry : entry_input = entry_input') (hprob : prob_maps = prob_maps') :
    ActionRecognition_forward hK st pose_input entry_input prob_maps =
      ActionRecognition_forward hK st' pose_input' entry_input' prob_maps' := by
  subst hst
  subst hpose
  subst hentry
  subst hprob
  rfl

/-- Witness for C8: two runs of the forward pass on the same concrete state
and inputs agree. -/
theorem actionRecognition_deterministic_witness :
    ActionRecognition_forward Nat.one_pos sampleAR 2 sampleT4c sampleT4c =
      ActionRecognition_forward Nat.one_pos sampleAR 2 sampleT4c sampleT4c :=
  actionRecognition_deterministic ℝ ℝ ℝ 1 1 1 1 1 1 1 Nat.one_pos
    sampleAR sampleAR 2 2 sampleT4c sampleT4c sampleT4c sampleT4c
    rfl rfl rfl rfl

end DeepHar
